import Mathlib

/-
Verification development for the template-expansion engine of src/bot.py.

The core function interpret_template_string (bot.py lines 34-101) is embedded
here as a pure function over lists of characters.  Python exceptions that
propagate out of the function (all of them ValueError in this code: int() on a
non-numeric token, datetime.strptime on a malformed time literal, str.index on
a missing substring, range() with a zero step, an unpacking mismatch in the
grid branch) are modelled as an Except error, the FormatError of the spec.

Regex note.  The two range matchers are Python regexes applied with re.match
(anchored at the start only).  Both consist of greedy character-class runs
separated by forced literal characters; for every class run in these patterns,
shortening the run during backtracking leaves the next character inside the
class, which can never equal the literal the pattern requires next, so
backtracking can never turn a failed greedy parse into a success.  The
hand-written scanners below therefore implement the exact regex semantics.
Character classes are modelled over ASCII, which covers the template surface
syntax of the bot.
-/

/-- Python regex class \d restricted to ASCII: 0-9. -/
def isDigitC (c : Char) : Bool := 48 ≤ c.toNat && c.toNat ≤ 57

/-- Python regex class \s restricted to ASCII: space, tab, newline, return,
vertical tab, form feed. -/
def isSpaceC (c : Char) : Bool :=
  c.toNat == 32 || c.toNat == 9 || c.toNat == 10 || c.toNat == 13 ||
  c.toNat == 11 || c.toNat == 12

/-- ASCII letter A-Z or a-z. -/
def isAlphaC (c : Char) : Bool :=
  (65 ≤ c.toNat && c.toNat ≤ 90) || (97 ≤ c.toNat && c.toNat ≤ 122)

/-- The class [0-9A-Za-z:] of the prefixed-range regex bound tokens. -/
def inClsC (c : Char) : Bool := isDigitC c || isAlphaC c || c == ':'

/-- The class [^,\]] of the prefixed-range regex prefix group. -/
def predG1 (c : Char) : Bool := !(c == ',' || c == ']')

/-- Greedy character-class run: longest prefix satisfying p, and the rest. -/
def spanP (p : Char → Bool) : List Char → (List Char × List Char)
  | [] => ([], [])
  | c :: t =>
    if p c then
      let r := spanP p t
      (c :: r.1, r.2)
    else ([], c :: t)

/-- Python str.isdigit on an ASCII string: nonempty and all digits. -/
def isdigitL (l : List Char) : Bool := !l.isEmpty && l.all isDigitC

/-- Python str.isalpha on an ASCII string: nonempty and all letters. -/
def isalphaL (l : List Char) : Bool := !l.isEmpty && l.all isAlphaC

/-- Membership test for the colon character, used for the `":" in raw_s` check. -/
def hasColon : List Char → Bool
  | [] => false
  | c :: t => c == ':' || hasColon t

/-- Python str.isupper on an ASCII string: at least one letter and no
lowercase letter. -/
def pyIsUpper (l : List Char) : Bool :=
  l.any isAlphaC && l.all (fun c => !(97 ≤ c.toNat && c.toNat ≤ 122))

/-- Numeric value of a digit string, the accumulator form of int(). -/
def decValAux (a : Nat) : List Char → Nat
  | [] => a
  | c :: t => decValAux (10 * a + (c.toNat - 48)) t

/-- Numeric value of a digit string. -/
def decVal (l : List Char) : Nat := decValAux 0 l

/-- Decimal digits of a natural number, with explicit fuel so that the
definition is structural and kernel-reducible.  Fuel n + 1 always suffices. -/
def natToDecAux : Nat → Nat → List Char
  | 0, _ => []
  | fuel + 1, n =>
    if n < 10 then [Char.ofNat (48 + n)]
    else natToDecAux fuel (n / 10) ++ [Char.ofNat (48 + n % 10)]

/-- Decimal representation of a natural number, as str() produces it. -/
def natToDec (n : Nat) : List Char := natToDecAux (n + 1) n

/-- Decimal representation of an integer, as str() produces it. -/
def intToDec (i : Int) : List Char :=
  if i < 0 then '-' :: natToDec (-i).toNat else natToDec i.toNat

/-- Python str.zfill: left-pad with zeros up to the given width. -/
def zfill (w : Nat) (l : List Char) : List Char :=
  if w ≤ l.length then l else List.replicate (w - l.length) '0' ++ l

/-- Python range(start, stop, step) for a positive step, as a list. -/
def pyRangePos (start stop : Int) (step : Nat) : List Int :=
  (List.range ((stop - start + step - 1).toNat / step)).map
    (fun (k : Nat) => start + (k : Int) * (step : Int))

/-! ## The two start-anchored range matchers -/

/-- The bare numeric range matcher, regex
r"\[\s*(\d+)\.\.\.(\d+)(?::(\d+))?\s*\]" applied with re.match (bot.py line
37).  Returns the three captured groups; anything after the closing bracket
is ignored, exactly as the start-anchored regex does. -/
def matchBareNumeric (fs : List Char) :
    Option (List Char × List Char × Option (List Char)) :=
  match fs with
  | '[' :: r0 =>
    let sp1 := spanP isSpaceC r0
    let dsr := spanP isDigitC sp1.2
    if dsr.1.isEmpty then none
    else
      match dsr.2 with
      | '.' :: '.' :: '.' :: r3 =>
        let esr := spanP isDigitC r3
        if esr.1.isEmpty then none
        else
          match esr.2 with
          | ':' :: r5 =>
            let str := spanP isDigitC r5
            if str.1.isEmpty then none
            else
              let sp2 := spanP isSpaceC str.2
              match sp2.2 with
              | ']' :: _ => some (dsr.1, esr.1, some str.1)
              | _ => none
          | _ =>
            let sp2 := spanP isSpaceC esr.2
            match sp2.2 with
            | ']' :: _ => some (dsr.1, esr.1, none)
            | _ => none
      | _ => none
  | _ => none

/-- The prefixed range matcher, regex
r"\[([^,\]]+),\s*([0-9A-Za-z:]+)\.\.\.([0-9A-Za-z:]+)(?::(\d+))?\]" applied
with re.match (bot.py line 46).  The step group is kept for faithfulness, but
it can never capture: a colon followed by digits is always absorbed by the
greedy class run of the third group. -/
def matchPrefixed (fs : List Char) :
    Option (List Char × List Char × List Char × Option (List Char)) :=
  match fs with
  | '[' :: r0 =>
    let pr := spanP predG1 r0
    if pr.1.isEmpty then none
    else
      match pr.2 with
      | ',' :: r2 =>
        let sp := spanP isSpaceC r2
        let s1r := spanP inClsC sp.2
        if s1r.1.isEmpty then none
        else
          match s1r.2 with
          | '.' :: '.' :: '.' :: r5 =>
            let e1r := spanP inClsC r5
            if e1r.1.isEmpty then none
            else
              match e1r.2 with
              | ']' :: _ => some (pr.1, s1r.1, e1r.1, none)
              | ':' :: r7 =>
                let str := spanP isDigitC r7
                if str.1.isEmpty then none
                else
                  match str.2 with
                  | ']' :: _ => some (pr.1, s1r.1, e1r.1, some str.1)
                  | _ => none
              | _ => none
          | _ => none
      | _ => none
  | _ => none

/-! ## Time parsing, datetime.strptime with format "%H:%M" -/

/-- The %H directive of strptime, regex 2[0-3]|[0-1]\d|\d with the usual
greedy alternation order. -/
def parseH : List Char → Option (Nat × List Char)
  | c1 :: c2 :: rest =>
    if c1 == '2' && (48 ≤ c2.toNat && c2.toNat ≤ 51) then
      some (20 + (c2.toNat - 48), rest)
    else if (c1 == '0' || c1 == '1') && isDigitC c2 then
      some (10 * (c1.toNat - 48) + (c2.toNat - 48), rest)
    else if isDigitC c1 then some (c1.toNat - 48, c2 :: rest)
    else none
  | [c1] => if isDigitC c1 then some (c1.toNat - 48, []) else none
  | [] => none

/-- The %M directive of strptime, regex [0-5]\d|\d. -/
def parseM : List Char → Option (Nat × List Char)
  | c1 :: c2 :: rest =>
    if (48 ≤ c1.toNat && c1.toNat ≤ 53) && isDigitC c2 then
      some (10 * (c1.toNat - 48) + (c2.toNat - 48), rest)
    else if isDigitC c1 then some (c1.toNat - 48, c2 :: rest)
    else none
  | [c1] => if isDigitC c1 then some (c1.toNat - 48, []) else none
  | [] => none

/-- After %H: a literal colon, %M, then require the whole string to be
consumed (otherwise "unconverted data remains"). -/
def parseHMTail (h : Nat) : List Char → Option (Nat × Nat)
  | [] => none
  | c :: r2 =>
    if c = ':' then
      match parseM r2 with
      | some (m, r3) => if r3.isEmpty then some (h, m) else none
      | none => none
    else none

/-- strptime(text, "%H:%M"). -/
def parseHM (l : List Char) : Option (Nat × Nat) :=
  match parseH l with
  | some (h, r) => parseHMTail h r
  | none => none

/-- Two-digit zero-padded field of strftime. -/
def pad2 (n : Nat) : List Char := zfill 2 (natToDec n)

/-- Closed form of the while loop of the time branch (bot.py lines 62-66):
minute timestamps t, t + 60*stepH, ... while the running time does not exceed
te.  At the only call site stepH is always 1, because the step group of the
prefixed regex never captures; the stepH = 0 case of this closed form is never
exercised (in the source it would not terminate). -/
def timeRange (ts te stepH : Nat) : List Nat :=
  if ts ≤ te then
    (List.range ((te - ts) / (60 * stepH) + 1)).map (fun k => ts + k * (60 * stepH))
  else []

/-! ## Alphabet handling, string.ascii_uppercase / ascii_lowercase -/

def upperAlpha : List Char := "ABCDEFGHIJKLMNOPQRSTUVWXYZ".data

def lowerAlpha : List Char := "abcdefghijklmnopqrstuvwxyz".data

/-- Python str.index: position of the first occurrence of needle as a
substring of hay, none when absent (a ValueError in the source). -/
def strIndexAux (needle : List Char) : Nat → List Char → Option Nat
  | i, h =>
    if needle.isPrefixOf h then some i
    else
      match h with
      | [] => none
      | _ :: t => strIndexAux needle (i + 1) t

def strIndex (hay needle : List Char) : Option Nat := strIndexAux needle 0 hay

/-- Python slice l[i:j] with step 1 and the usual clamping. -/
def pySlice (l : List Char) (i j : Nat) : List Char := (l.take j).drop i

/-- Every step-th element, fuelled to stay structural.  At the only call site
the step is always 1 (the step group of the prefixed regex never captures). -/
def takeEveryAux (s : Nat) : Nat → List Char → List Char
  | 0, _ => []
  | _, [] => []
  | fuel + 1, c :: rest => c :: takeEveryAux s fuel (rest.drop (s - 1))

def takeEvery (s : Nat) (l : List Char) : List Char := takeEveryAux s l.length l

/-- Python slice l[i:j:step]. -/
def pySliceStep (l : List Char) (i j s : Nat) : List Char := takeEvery s (pySlice l i j)

/-- Python str.strip on ASCII whitespace. -/
def stripL (l : List Char) : List Char :=
  ((l.dropWhile isSpaceC).reverse.dropWhile isSpaceC).reverse

/-! ## The expansion branches -/

/-- Errors that propagate out of interpret_template_string.  Every such error
in the source is a ValueError; the spec calls the propagated class
FormatError. -/
inductive FormatError
  | valueError
deriving Repr, DecidableEq

/-- The step of a range: int(raw_step) if raw_step else 1 (bot.py lines 41
and 50). -/
def stepOf (stTok : Option (List Char)) : Nat :=
  match stTok with
  | some t => decVal t
  | none => 1

/-- The bare numeric branch (bot.py lines 38-43): parse bounds and step,
zero-pad to the width of the wider bound token.  range() raises ValueError on
a zero step. -/
def bareBranch (ds es : List Char) (stTok : Option (List Char)) :
    Except FormatError (List (List Char)) :=
  let start : Int := (decVal ds : Int)
  let stop : Int := (decVal es : Int)
  let step : Nat := stepOf stTok
  let width : Nat := max ds.length es.length
  if step = 0 then .error .valueError
  else .ok ((pyRangePos start (stop + 1) step).map (fun i => zfill width (intToDec i)))

/-- The three sub-variants of the prefixed branch (bot.py lines 47-72),
selected on the shape of the start token.  The captured prefix group is
stripped of surrounding whitespace first (bot.py line 48).  none means none
of the three guards held, in which case control in the source falls out of
the `if m1` block to the later matchers. -/
def prefixedBranch (g1 s1 e1 : List Char) (stTok : Option (List Char)) :
    Option (Except FormatError (List (List Char))) :=
  let pfx : List Char := stripL g1
  let step : Nat := stepOf stTok
  if isdigitL s1 then some (
    if isdigitL e1 then
      let start : Int := (decVal s1 : Int)
      let stop : Int := (decVal e1 : Int)
      let width : Nat := max s1.length e1.length
      if step = 0 then .error .valueError
      else .ok ((pyRangePos start (stop + 1) step).map
        (fun i => pfx ++ zfill width (intToDec i)))
    else .error .valueError)
  else if hasColon s1 then some (
    match parseHM s1 with
    | none => .error .valueError
    | some hm1 =>
      match parseHM e1 with
      | none => .error .valueError
      | some hm2 =>
        .ok ((timeRange (hm1.1 * 60 + hm1.2) (hm2.1 * 60 + hm2.2) step).map
          (fun t => pfx ++ pad2 ((t / 60) % 24) ++ ':' :: pad2 (t % 60))))
  else if s1.length = 1 && isalphaL s1 then some (
    let alpha := if pyIsUpper s1 then upperAlpha else lowerAlpha
    match strIndex alpha s1 with
    | none => .error .valueError
    | some i =>
      match strIndex alpha e1 with
      | none => .error .valueError
      | some j => .ok ((pySliceStep alpha i (j + 1) step).map (fun c => pfx ++ [c])))
  else none

/-! ## The grid branch, regex findall and re.sub over brace groups -/

/-- Scan for the closing brace of a lazy brace group: content up to the first
closing brace, failing on a newline (the regex dot does not cross lines). -/
def takeUntilRB : List Char → Option (List Char × List Char)
  | [] => none
  | c :: t =>
    if c == '\x7d' then some ([], t)
    else if c == '\n' then none
    else
      match takeUntilRB t with
      | some (a, r) => some (c :: a, r)
      | none => none

/-- All brace-group contents left to right, the findall of bot.py line 75,
fuelled on the input length to stay structural. -/
def findBracesAux : Nat → List Char → List (List Char)
  | 0, _ => []
  | fuel + 1, l =>
    match l with
    | [] => []
    | c :: rest =>
      if c == '\x7b' then
        match takeUntilRB rest with
        | some (content, rest2) => content :: findBracesAux fuel rest2
        | none => findBracesAux fuel rest
      else findBracesAux fuel rest

def findBraces (l : List Char) : List (List Char) := findBracesAux l.length l

/-- re.sub of the brace pattern with count 1: replace the leftmost brace
group by v, or leave the string unchanged when there is none. -/
def subFirstBrace (tmp v : List Char) : List Char :=
  match tmp with
  | [] => []
  | c :: rest =>
    if c == '\x7b' then
      match takeUntilRB rest with
      | some pr => v ++ pr.2
      | none => c :: subFirstBrace rest v
    else c :: subFirstBrace rest v

/-- Python str.split("...") on the content of one brace group. -/
def splitOnDots : List Char → List (List Char)
  | '.' :: '.' :: '.' :: rest => [] :: splitOnDots rest
  | c :: rest =>
    match splitOnDots rest with
    | h :: t => (c :: h) :: t
    | [] => [[c]]
  | [] => [[]]

/-- One grid axis (bot.py lines 78-84): `a, b = expr.split("...")` raises on
anything but exactly two parts; a numeric start gives an inclusive integer
range with no padding, anything else an alphabet slice through str.index.
The int() on the end bound is modelled digits-only: the tolerance of Python
int() for surrounding whitespace, a sign or underscore separators is not
modelled, which only narrows the success hypothesis of the grid theorem and
changes no output on plain numeric tokens. -/
def parseAxis (expr : List Char) : Except FormatError (List (List Char)) :=
  match splitOnDots expr with
  | [a, b] =>
    if isdigitL a then
      if isdigitL b then
        .ok ((pyRangePos (decVal a : Int) ((decVal b : Int) + 1) 1).map intToDec)
      else .error .valueError
    else
      let alpha := if pyIsUpper a then upperAlpha else lowerAlpha
      match strIndex alpha a with
      | none => .error .valueError
      | some i =>
        match strIndex alpha b with
        | none => .error .valueError
        | some j => .ok ((pySlice alpha i (j + 1)).map (fun c => [c]))
  | _ => .error .valueError

def parseAxes : List (List Char) → Except FormatError (List (List (List Char)))
  | [] => .ok []
  | e :: es =>
    match parseAxis e with
    | .error err => .error err
    | .ok a =>
      match parseAxes es with
      | .error err => .error err
      | .ok r => .ok (a :: r)

/-- itertools.product: Cartesian product in declaration order, rightmost
factor varying fastest. -/
def prodList : List (List (List Char)) → List (List (List Char))
  | [] => [[]]
  | l :: ls => l.flatMap (fun x => (prodList ls).map (fun c => x :: c))

/-! ## Literal list and fallback -/

/-- Python str.split(","). -/
def splitComma : List Char → List (List Char)
  | [] => [[]]
  | c :: rest =>
    if c == ',' then [] :: splitComma rest
    else
      match splitComma rest with
      | h :: t => (c :: h) :: t
      | [] => [[c]]

/-- The matchers after the two bracketed range regexes (bot.py lines 74-101):
grid expansion when any brace group is present, else the literal list when
the template is bracketed and splits into more than one item, else the
passthrough singleton. -/
def restOf (fs : List Char) : Except FormatError (List (List Char)) :=
  let braces := findBraces fs
  if braces.isEmpty then
    match fs with
    | '[' :: rest =>
      if fs.getLast? == some ']' then
        let inner := rest.dropLast
        let parts := (splitComma inner).map stripL
        if parts.length > 1 then .ok parts else .ok [fs]
      else .ok [fs]
    | _ => .ok [fs]
  else
    match parseAxes braces with
    | .error err => .error err
    | .ok ls => .ok ((prodList ls).map (fun combo => combo.foldl subFirstBrace fs))

/-- interpret_template_string (bot.py lines 34-101): try the bare numeric
matcher, then the prefixed matcher; a prefixed structural match whose start
token selects no sub-variant falls through to the remaining matchers. -/
def interpretChars (fs : List Char) : Except FormatError (List (List Char)) :=
  match matchBareNumeric fs with
  | some g => bareBranch g.1 g.2.1 g.2.2
  | none =>
    match matchPrefixed fs with
    | some g =>
      match prefixedBranch g.1 g.2.1 g.2.2.1 g.2.2.2 with
      | some r => r
      | none => restOf fs
    | none => restOf fs

/-- The string-level entry point, the expand of the spec. -/
def interpret_template_string (s : String) : Except FormatError (List String) :=
  match interpretChars s.data with
  | .error e => .error e
  | .ok l => .ok (l.map String.mk)

/-! ## The conditional filter, the eval(condition) sites

remove_channels (bot.py lines 244-250) and preview_template (lines 276-282)
pass the predicate text to the built-in eval inside the loop over the
generated names, with the 1-based loop index i a local variable.  eval reads
the current locals and globals, so the predicate can reference any name in
scope, not only i.  The integer and boolean fragment of the expressions eval
accepts is embedded here as an AST together with the scope it runs in; the
text-to-AST step is the deterministic Python expression parser and is not
re-modelled. -/

inductive PyVal
  | int (n : Int)
  | bool (b : Bool)
deriving Repr, DecidableEq

/-- Errors an eval call can raise at run time in this fragment. -/
inductive EvalErr
  | nameError
  | zeroDivisionError
deriving Repr, DecidableEq

inductive PyExpr
  | intLit (n : Int)
  | var (name : String)
  | add (a b : PyExpr)
  | sub (a b : PyExpr)
  | mul (a b : PyExpr)
  | mod (a b : PyExpr)
  | eq (a b : PyExpr)
  | ne (a b : PyExpr)
  | lt (a b : PyExpr)
  | le (a b : PyExpr)
  | gt (a b : PyExpr)
  | ge (a b : PyExpr)
  | land (a b : PyExpr)
  | lor (a b : PyExpr)
  | lnot (a : PyExpr)
deriving Repr, DecidableEq

/-- The scope an eval call sees: locals and globals, nearest binding first. -/
def PyEnv : Type := List (String × PyVal)

/-- Python truthiness of a value. -/
def truthy : PyVal → Bool
  | .int n => n != 0
  | .bool b => b

/-- Numeric content of a value; bool coerces to 0 or 1 as in Python. -/
def asInt : PyVal → Int
  | .int n => n
  | .bool b => if b then 1 else 0

/-- Evaluate an expression in a scope.  Unknown names raise NameError, a zero
modulus raises ZeroDivisionError; % follows the Python sign convention (sign
of the divisor), which is Int.fmod. -/
def pyEval (env : PyEnv) : PyExpr → Except EvalErr PyVal
  | .intLit n => .ok (.int n)
  | .var x =>
    match List.lookup x env with
    | some v => .ok v
    | none => .error .nameError
  | .add a b =>
    match pyEval env a with
    | .error e => .error e
    | .ok va =>
      match pyEval env b with
      | .error e => .error e
      | .ok vb => .ok (.int (asInt va + asInt vb))
  | .sub a b =>
    match pyEval env a with
    | .error e => .error e
    | .ok va =>
      match pyEval env b with
      | .error e => .error e
      | .ok vb => .ok (.int (asInt va - asInt vb))
  | .mul a b =>
    match pyEval env a with
    | .error e => .error e
    | .ok va =>
      match pyEval env b with
      | .error e => .error e
      | .ok vb => .ok (.int (asInt va * asInt vb))
  | .mod a b =>
    match pyEval env a with
    | .error e => .error e
    | .ok va =>
      match pyEval env b with
      | .error e => .error e
      | .ok vb =>
        if asInt vb = 0 then .error .zeroDivisionError
        else .ok (.int (Int.fmod (asInt va) (asInt vb)))
  | .eq a b =>
    match pyEval env a with
    | .error e => .error e
    | .ok va =>
      match pyEval env b with
      | .error e => .error e
      | .ok vb => .ok (.bool (asInt va == asInt vb))
  | .ne a b =>
    match pyEval env a with
    | .error e => .error e
    | .ok va =>
      match pyEval env b with
      | .error e => .error e
      | .ok vb => .ok (.bool (asInt va != asInt vb))
  | .lt a b =>
    match pyEval env a with
    | .error e => .error e
    | .ok va =>
      match pyEval env b with
      | .error e => .error e
      | .ok vb => .ok (.bool (decide (asInt va < asInt vb)))
  | .le a b =>
    match pyEval env a with
    | .error e => .error e
    | .ok va =>
      match pyEval env b with
      | .error e => .error e
      | .ok vb => .ok (.bool (decide (asInt va ≤ asInt vb)))
  | .gt a b =>
    match pyEval env a with
    | .error e => .error e
    | .ok va =>
      match pyEval env b with
      | .error e => .error e
      | .ok vb => .ok (.bool (decide (asInt vb < asInt va)))
  | .ge a b =>
    match pyEval env a with
    | .error e => .error e
    | .ok va =>
      match pyEval env b with
      | .error e => .error e
      | .ok vb => .ok (.bool (decide (asInt vb ≤ asInt va)))
  | .land a b =>
    match pyEval env a with
    | .error e => .error e
    | .ok va => if truthy va then pyEval env b else .ok va
  | .lor a b =>
    match pyEval env a with
    | .error e => .error e
    | .ok va => if truthy va then .ok va else pyEval env b
  | .lnot a =>
    match pyEval env a with
    | .error e => .error e
    | .ok va => .ok (.bool (!truthy va))

/-- Whether one evaluation of the remove_channels condition keeps index i:
truthy result keeps, falsy or any exception skips (the bare except of bot.py
lines 246-250). -/
def evalKeeps (env : PyEnv) (c : PyExpr) (i : Nat) : Bool :=
  match pyEval (("i", PyVal.int i) :: env) c with
  | .ok v => truthy v
  | .error _ => false

/-- The filtering pass of remove_channels (bot.py lines 244-250): walk the
generated names with enumerate(names, start=1); with a condition, an index is
kept only when eval returns truthy, and an evaluation failure skips just that
index and the loop continues. -/
def remove_channels_keptAux (env : PyEnv) (cond : Option PyExpr) :
    Nat → List String → List (Nat × String)
  | _, [] => []
  | i, n :: rest =>
    let keep : Bool :=
      match cond with
      | none => true
      | some c => evalKeeps env c i
    if keep then (i, n) :: remove_channels_keptAux env cond (i + 1) rest
    else remove_channels_keptAux env cond (i + 1) rest

def remove_channels_kept (env : PyEnv) (cond : Option PyExpr)
    (names : List String) : List (Nat × String) :=
  remove_channels_keptAux env cond 1 names

/-- The filtering pass of preview_template (bot.py lines 276-282): the eval
call is not wrapped per index, only by the try of the whole command body, so
the first evaluation failure aborts the entire preview and surfaces the
error. -/
def preview_template_filteredAux (env : PyEnv) (e : PyExpr) :
    Nat → List String → Except EvalErr (List String)
  | _, [] => .ok []
  | i, n :: rest =>
    match pyEval (("i", PyVal.int i) :: env) e with
    | .error err => .error err
    | .ok v =>
      match preview_template_filteredAux env e (i + 1) rest with
      | .error err => .error err
      | .ok r => .ok (if truthy v then n :: r else r)

def preview_template_filtered (env : PyEnv) (e : PyExpr) (names : List String) :
    Except EvalErr (List String) :=
  preview_template_filteredAux env e 1 names

/-- enumerate(names, start=1). -/
def enumFrom (i : Nat) : List String → List (Nat × String)
  | [] => []
  | x :: t => (i, x) :: enumFrom (i + 1) t

/-- The free variables of a predicate expression. -/
def varsOf : PyExpr → List String
  | .intLit _ => []
  | .var x => [x]
  | .add a b => varsOf a ++ varsOf b
  | .sub a b => varsOf a ++ varsOf b
  | .mul a b => varsOf a ++ varsOf b
  | .mod a b => varsOf a ++ varsOf b
  | .eq a b => varsOf a ++ varsOf b
  | .ne a b => varsOf a ++ varsOf b
  | .lt a b => varsOf a ++ varsOf b
  | .le a b => varsOf a ++ varsOf b
  | .gt a b => varsOf a ++ varsOf b
  | .ge a b => varsOf a ++ varsOf b
  | .land a b => varsOf a ++ varsOf b
  | .lor a b => varsOf a ++ varsOf b
  | .lnot a => varsOf a

/-- A predicate that reads only the index variable i. -/
def varsOnlyIndex (e : PyExpr) : Bool := (varsOf e).all (fun x => x == "i")

/-- The AST of the predicate text "i % 2 == 0". -/
def idxEvenExpr : PyExpr := .eq (.mod (.var "i") (.intLit 2)) (.intLit 0)

/-- The AST of the predicate text "1 % (i - 2) == 0", which evaluates fine at
index 1 but raises ZeroDivisionError at index 2. -/
def failAtTwoExpr : PyExpr :=
  .eq (.mod (.intLit 1) (.sub (.var "i") (.intLit 2))) (.intLit 0)

/-! ## Basic lemmas about the scanners -/

theorem spanP_eq_of_head_false (p : Char → Bool) (c : Char) (t : List Char)
    (h : p c = false) : spanP p (c :: t) = ([], c :: t) := by
  simp [spanP, h]

theorem spanP_append_cons (p : Char → Bool) (xs : List Char) (y : Char)
    (t : List Char) (h1 : ∀ x ∈ xs, p x = true) (h2 : p y = false) :
    spanP p (xs ++ y :: t) = (xs, y :: t) := by
  induction xs with
  | nil => simp [spanP, h2]
  | cons x xs ih =>
    have hx : p x = true := h1 x (by simp)
    have ihh := ih (fun a ha => h1 a (by simp [ha]))
    simp [spanP, hx, ihh]

theorem spanP_fst_all (p : Char → Bool) (l : List Char) :
    ∀ c ∈ (spanP p l).1, p c = true := by
  induction l with
  | nil => intro c hc; simp [spanP] at hc
  | cons x xs ih =>
    intro c hc
    by_cases hx : p x = true
    · simp only [spanP, hx, if_true] at hc
      rcases List.mem_cons.mp hc with rfl | h
      · exact hx
      · exact ih c h
    · rw [spanP_eq_of_head_false p x xs (Bool.not_eq_true _ |>.mp hx)] at hc
      simp at hc

theorem isdigitL_ne_nil {l : List Char} (h : isdigitL l = true) : l ≠ [] := by
  intro hl
  subst hl
  simp [isdigitL] at h

theorem isdigitL_mem {l : List Char} (h : isdigitL l = true) :
    ∀ c ∈ l, isDigitC c = true := by
  simp only [isdigitL, Bool.and_eq_true, List.all_eq_true] at h
  exact h.2

theorem digit_not_space {c : Char} (h : isDigitC c = true) : isSpaceC c = false := by
  simp only [isDigitC, Bool.and_eq_true, decide_eq_true_eq] at h
  simp only [isSpaceC, Bool.or_eq_false_iff, beq_eq_false_iff_ne, ne_eq]
  omega

theorem alpha_not_space {c : Char} (h : isAlphaC c = true) : isSpaceC c = false := by
  simp only [isAlphaC, Bool.and_eq_true, Bool.or_eq_true, decide_eq_true_eq] at h
  simp only [isSpaceC, Bool.or_eq_false_iff, beq_eq_false_iff_ne, ne_eq]
  omega

theorem alpha_not_digit {c : Char} (h : isAlphaC c = true) : isDigitC c = false := by
  simp only [isAlphaC, Bool.and_eq_true, Bool.or_eq_true, decide_eq_true_eq] at h
  simp only [isDigitC, Bool.and_eq_false_iff, decide_eq_false_iff_not, not_le]
  omega

theorem inCls_not_space {c : Char} (h : inClsC c = true) : isSpaceC c = false := by
  simp only [inClsC, Bool.or_eq_true, beq_iff_eq] at h
  rcases h with (h | h) | h
  · exact digit_not_space h
  · exact alpha_not_space h
  · subst h; decide

/-! ## The matchers on constructed range templates -/

theorem matchBareNumeric_build (ds es tail : List Char)
    (hds : isdigitL ds = true) (hes : isdigitL es = true) :
    matchBareNumeric ('[' :: (ds ++ '.' :: '.' :: '.' :: (es ++ ']' :: tail)))
      = some (ds, es, none) := by
  obtain ⟨d, ds0, rfl⟩ := List.exists_cons_of_ne_nil (isdigitL_ne_nil hds)
  have hd : isDigitC d = true := isdigitL_mem hds d (by simp)
  have e1 : spanP isSpaceC (d :: (ds0 ++ '.' :: '.' :: '.' :: (es ++ ']' :: tail)))
      = ([], d :: (ds0 ++ '.' :: '.' :: '.' :: (es ++ ']' :: tail))) :=
    spanP_eq_of_head_false _ _ _ (digit_not_space hd)
  have e2 : spanP isDigitC ((d :: ds0) ++ '.' :: '.' :: '.' :: (es ++ ']' :: tail))
      = (d :: ds0, '.' :: '.' :: '.' :: (es ++ ']' :: tail)) :=
    spanP_append_cons _ _ _ _ (isdigitL_mem hds) (by decide)
  have e3 : spanP isDigitC (es ++ ']' :: tail) = (es, ']' :: tail) :=
    spanP_append_cons _ _ _ _ (isdigitL_mem hes) (by decide)
  have e4 : spanP isSpaceC (']' :: tail) = ([], ']' :: tail) :=
    spanP_eq_of_head_false _ _ _ (by decide)
  rw [List.cons_append] at e2
  have hese : es.isEmpty = false := by
    cases es with
    | nil => exact absurd hes (by simp [isdigitL])
    | cons a b => simp
  unfold matchBareNumeric
  simp only [List.cons_append, e1, e2, e3, e4, List.isEmpty_cons, hese]
  simp

theorem matchPrefixed_build (c0 : Char) (p0 s1 e1 tail : List Char)
    (hp : ∀ x ∈ c0 :: p0, predG1 x = true)
    (hs1 : s1 ≠ []) (hs1a : ∀ x ∈ s1, inClsC x = true)
    (he1 : e1 ≠ []) (he1a : ∀ x ∈ e1, inClsC x = true) :
    matchPrefixed ('[' :: ((c0 :: p0) ++ ',' :: (s1 ++ '.' :: '.' :: '.' :: (e1 ++ ']' :: tail))))
      = some (c0 :: p0, s1, e1, none) := by
  obtain ⟨s, s0, rfl⟩ := List.exists_cons_of_ne_nil hs1
  have hs : inClsC s = true := hs1a s (by simp)
  have e2 : spanP predG1 ((c0 :: p0) ++ ',' :: ((s :: s0) ++ '.' :: '.' :: '.' :: (e1 ++ ']' :: tail)))
      = (c0 :: p0, ',' :: ((s :: s0) ++ '.' :: '.' :: '.' :: (e1 ++ ']' :: tail))) :=
    spanP_append_cons _ _ _ _ hp (by decide)
  have e3 : spanP isSpaceC (s :: (s0 ++ '.' :: '.' :: '.' :: (e1 ++ ']' :: tail)))
      = ([], s :: (s0 ++ '.' :: '.' :: '.' :: (e1 ++ ']' :: tail))) :=
    spanP_eq_of_head_false _ _ _ (inCls_not_space hs)
  have e4 : spanP inClsC ((s :: s0) ++ '.' :: '.' :: '.' :: (e1 ++ ']' :: tail))
      = (s :: s0, '.' :: '.' :: '.' :: (e1 ++ ']' :: tail)) :=
    spanP_append_cons _ _ _ _ hs1a (by decide)
  have e5 : spanP inClsC (e1 ++ ']' :: tail) = (e1, ']' :: tail) :=
    spanP_append_cons _ _ _ _ he1a (by decide)
  simp only [List.cons_append] at e2 e4
  have he1e : e1.isEmpty = false := by
    cases e1 with
    | nil => exact absurd rfl he1
    | cons a b => simp
  unfold matchPrefixed
  simp only [List.cons_append, e2, e3, e4, e5, List.isEmpty_cons, he1e]
  simp

theorem matchBareNumeric_none_of_alpha_head (c0 : Char) (r : List Char)
    (hc0 : isAlphaC c0 = true) :
    matchBareNumeric ('[' :: c0 :: r) = none := by
  have e1 : spanP isSpaceC (c0 :: r) = ([], c0 :: r) :=
    spanP_eq_of_head_false _ _ _ (alpha_not_space hc0)
  have e2 : spanP isDigitC (c0 :: r) = ([], c0 :: r) :=
    spanP_eq_of_head_false _ _ _ (alpha_not_digit hc0)
  simp [matchBareNumeric, e1, e2]

/-! ## Unfolding interpret_template_string along the dispatcher -/

theorem interpretChars_bare {fs ds es : List Char} {st : Option (List Char)}
    (h : matchBareNumeric fs = some (ds, es, st)) :
    interpretChars fs = bareBranch ds es st := by
  unfold interpretChars
  rw [h]

theorem interpretChars_prefixed_hit {fs pfx s1 e1 : List Char}
    {st : Option (List Char)} {r : Except FormatError (List (List Char))}
    (h0 : matchBareNumeric fs = none)
    (h1 : matchPrefixed fs = some (pfx, s1, e1, st))
    (h2 : prefixedBranch pfx s1 e1 st = some r) :
    interpretChars fs = r := by
  unfold interpretChars
  rw [h0, h1]
  simp [h2]

theorem interpretChars_prefixed_fallthrough {fs pfx s1 e1 : List Char}
    {st : Option (List Char)}
    (h0 : matchBareNumeric fs = none)
    (h1 : matchPrefixed fs = some (pfx, s1, e1, st))
    (h2 : prefixedBranch pfx s1 e1 st = none) :
    interpretChars fs = restOf fs := by
  unfold interpretChars
  rw [h0, h1]
  simp [h2]

theorem interpretChars_rest {fs : List Char}
    (h0 : matchBareNumeric fs = none) (h1 : matchPrefixed fs = none) :
    interpretChars fs = restOf fs := by
  unfold interpretChars
  rw [h0, h1]

/-! ## Numeric facts: digit values, decimal lengths, range membership -/

theorem decValAux_nil (a : Nat) : decValAux a [] = a := rfl

theorem decValAux_cons (a : Nat) (c : Char) (t : List Char) :
    decValAux a (c :: t) = decValAux (10 * a + (c.toNat - 48)) t := rfl

theorem decValAux_lt (l : List Char) :
    ∀ a, (∀ c ∈ l, isDigitC c = true) → decValAux a l < (a + 1) * 10 ^ l.length := by
  induction l with
  | nil =>
    intro a _
    simp only [decValAux_nil, List.length_nil, pow_zero, mul_one]
    omega
  | cons c t ih =>
    intro a hall
    have hc : isDigitC c = true := hall c (by simp)
    have hd : c.toNat - 48 ≤ 9 := by
      simp only [isDigitC, Bool.and_eq_true, decide_eq_true_eq] at hc
      omega
    have h1 : decValAux (10 * a + (c.toNat - 48)) t
        < (10 * a + (c.toNat - 48) + 1) * 10 ^ t.length :=
      ih (10 * a + (c.toNat - 48)) (fun x hx => hall x (by simp [hx]))
    have h2 : (10 * a + (c.toNat - 48) + 1) * 10 ^ t.length
        ≤ ((a + 1) * 10) * 10 ^ t.length :=
      Nat.mul_le_mul (by omega) (Nat.le_refl _)
    have h3 : ((a + 1) * 10) * 10 ^ t.length = (a + 1) * 10 ^ (t.length + 1) := by
      rw [Nat.pow_succ]
      ring
    simp only [decValAux_cons, List.length_cons]
    omega

theorem decVal_lt {l : List Char} (h : ∀ c ∈ l, isDigitC c = true) :
    decVal l < 10 ^ l.length := by
  have := decValAux_lt l 0 h
  simpa [decVal, decValAux_nil] using this

theorem natToDecAux_len :
    ∀ fuel n w, n < fuel → 1 ≤ w → n < 10 ^ w → (natToDecAux fuel n).length ≤ w := by
  intro fuel
  induction fuel with
  | zero => omega
  | succ f ih =>
    intro n w hn hw hpow
    by_cases h10 : n < 10
    · simp [natToDecAux, h10]
      omega
    · have hw2 : 2 ≤ w := by
        by_contra hcon
        have : w = 1 := by omega
        subst this
        simp at hpow
        omega
      have hdivfuel : n / 10 < f := by
        have := Nat.div_lt_self (by omega : 0 < n) (by omega : 1 < 10)
        omega
      have hdivpow : n / 10 < 10 ^ (w - 1) := by
        rw [Nat.div_lt_iff_lt_mul (by omega : 0 < 10)]
        have : 10 ^ (w - 1) * 10 = 10 ^ w := by
          rw [← Nat.pow_succ]
          congr 1
          omega
        omega
      have := ih (n / 10) (w - 1) hdivfuel (by omega) hdivpow
      simp [natToDecAux, h10]
      omega

theorem natToDec_len {n w : Nat} (hw : 1 ≤ w) (hpow : n < 10 ^ w) :
    (natToDec n).length ≤ w :=
  natToDecAux_len (n + 1) n w (by omega) hw hpow

theorem intToDec_len {i : Int} {w : Nat} (h0 : 0 ≤ i) (hw : 1 ≤ w)
    (hpow : i < (10 ^ w : Nat)) : (intToDec i).length ≤ w := by
  have hneg : ¬ i < 0 := by omega
  have htn : i.toNat < 10 ^ w := by omega
  simpa [intToDec, hneg] using natToDec_len hw htn

theorem zfill_len {w : Nat} {l : List Char} (h : l.length ≤ w) :
    (zfill w l).length = w := by
  unfold zfill
  by_cases hw : w ≤ l.length
  · simp [hw]; omega
  · simp [hw]; omega

theorem pyRangePos_mem {a b : Int} {s : Nat} {i : Int} (hs : 0 < s)
    (h : i ∈ pyRangePos a b s) : a ≤ i ∧ i ≤ b - 1 := by
  unfold pyRangePos at h
  rw [List.mem_map] at h
  obtain ⟨k, hk, rfl⟩ := h
  rw [List.mem_range] at hk
  have hk1 : k + 1 ≤ (b - a + s - 1).toNat / s := hk
  have hks : (k + 1) * s ≤ (b - a + s - 1).toNat :=
    (Nat.le_div_iff_mul_le hs).mp hk1
  have hK : (0 : Int) ≤ (k : Int) * (s : Int) := by positivity
  have hcast : ((k + 1) * s : Nat) = (k : Int) * (s : Int) + (s : Int) := by
    push_cast
    ring
  have hub : ((k + 1) * s : Nat) ≤ ((b - a + s - 1).toNat : Int) := by
    exact_mod_cast hks
  constructor
  · omega
  · omega

theorem pyRangePos_nil {a b : Int} {s : Nat} (h : b < a) :
    pyRangePos a (b + 1) s = [] := by
  unfold pyRangePos
  have : ((b + 1) - a + s - 1).toNat / s = 0 := by
    rcases Nat.eq_zero_or_pos s with hs | hs
    · simp [hs]
    · apply Nat.div_eq_of_lt
      omega
  rw [this]
  simp

/-! ## Extension lemmas for strptime parsing -/

theorem parseH_append {c1 c2 : Char} {t x : List Char} {h : Nat} {r : List Char}
    (hp : parseH (c1 :: c2 :: t) = some (h, r)) :
    parseH (c1 :: c2 :: (t ++ x)) = some (h, r ++ x) := by
  by_cases hb1 : (c1 == '2' && (48 ≤ c2.toNat && c2.toNat ≤ 51)) = true
  · have hval : parseH (c1 :: c2 :: t) = some (20 + (c2.toNat - 48), t) := by
      simp [parseH, hb1]
    rw [hval, Option.some.injEq, Prod.mk.injEq] at hp
    have hgoal : parseH (c1 :: c2 :: (t ++ x)) = some (20 + (c2.toNat - 48), t ++ x) := by
      simp [parseH, hb1]
    rw [hgoal, Option.some.injEq, Prod.mk.injEq]
    exact ⟨hp.1, by rw [← hp.2]⟩
  · by_cases hb2 : ((c1 == '0' || c1 == '1') && isDigitC c2) = true
    · have hval : parseH (c1 :: c2 :: t)
          = some (10 * (c1.toNat - 48) + (c2.toNat - 48), t) := by
        simp [parseH, hb1, hb2]
      rw [hval, Option.some.injEq, Prod.mk.injEq] at hp
      have hgoal : parseH (c1 :: c2 :: (t ++ x))
          = some (10 * (c1.toNat - 48) + (c2.toNat - 48), t ++ x) := by
        simp [parseH, hb1, hb2]
      rw [hgoal, Option.some.injEq, Prod.mk.injEq]
      exact ⟨hp.1, by rw [← hp.2]⟩
    · by_cases hb3 : isDigitC c1 = true
      · have hval : parseH (c1 :: c2 :: t) = some (c1.toNat - 48, c2 :: t) := by
          simp [parseH, hb1, hb2, hb3]
        rw [hval, Option.some.injEq, Prod.mk.injEq] at hp
        have hgoal : parseH (c1 :: c2 :: (t ++ x))
            = some (c1.toNat - 48, c2 :: (t ++ x)) := by
          simp [parseH, hb1, hb2, hb3]
        rw [hgoal, Option.some.injEq, Prod.mk.injEq]
        exact ⟨hp.1, by rw [← hp.2, List.cons_append]⟩
      · have hval : parseH (c1 :: c2 :: t) = none := by
          simp [parseH, hb1, hb2, hb3]
        rw [hval] at hp
        exact absurd hp (by simp)

theorem parseM_append_colon {r2 x : List Char} {m : Nat}
    (hm : parseM r2 = some (m, [])) :
    parseM (r2 ++ ':' :: x) = some (m, ':' :: x) := by
  have hcd : isDigitC ':' = false := by decide
  match r2 with
  | [] => simp [parseM] at hm
  | [c1] =>
    by_cases hd : isDigitC c1 = true
    · have hval : parseM [c1] = some (c1.toNat - 48, ([] : List Char)) := by
        simp [parseM, hd]
      rw [hval, Option.some.injEq, Prod.mk.injEq] at hm
      have hgoal : parseM (c1 :: ':' :: x) = some (c1.toNat - 48, ':' :: x) := by
        simp [parseM, hcd, hd]
      rw [List.cons_append, List.nil_append, hgoal, Option.some.injEq, Prod.mk.injEq]
      exact ⟨hm.1, rfl⟩
    · simp [parseM, hd] at hm
  | c1 :: c2 :: t =>
    by_cases hb1 : ((48 ≤ c1.toNat && c1.toNat ≤ 53) && isDigitC c2) = true
    · have hval : parseM (c1 :: c2 :: t)
          = some (10 * (c1.toNat - 48) + (c2.toNat - 48), t) := by
        simp [parseM, hb1]
      rw [hval, Option.some.injEq, Prod.mk.injEq] at hm
      have ht : t = [] := hm.2
      subst ht
      have hgoal : parseM (c1 :: c2 :: (':' :: x))
          = some (10 * (c1.toNat - 48) + (c2.toNat - 48), ':' :: x) := by
        simp [parseM, hb1]
      rw [List.cons_append, List.cons_append, List.nil_append, hgoal,
        Option.some.injEq, Prod.mk.injEq]
      exact ⟨hm.1, rfl⟩
    · by_cases hb2 : isDigitC c1 = true
      · have hval : parseM (c1 :: c2 :: t) = some (c1.toNat - 48, c2 :: t) := by
          simp [parseM, hb1, hb2]
        rw [hval, Option.some.injEq, Prod.mk.injEq] at hm
        exact absurd hm.2 (by simp)
      · have hval : parseM (c1 :: c2 :: t) = none := by
          simp [parseM, hb1, hb2]
        rw [hval] at hm
        exact absurd hm (by simp)

theorem parseHMTail_append_colon {r x : List Char} {h a b : Nat}
    (hp : parseHMTail h r = some (a, b)) :
    parseHMTail h (r ++ ':' :: x) = none := by
  match r with
  | [] => simp [parseHMTail] at hp
  | c :: r2 =>
    by_cases hc : c = ':'
    · subst hc
      cases hm : parseM r2 with
      | none => simp [parseHMTail, hm] at hp
      | some pr =>
        obtain ⟨m, r3⟩ := pr
        by_cases h3 : r3.isEmpty = true
        · have hr3 : r3 = [] := by
            cases r3 with
            | nil => rfl
            | cons u v => simp at h3
          subst hr3
          have hext := parseM_append_colon (x := x) hm
          simp [parseHMTail, hext]
        · simp [parseHMTail, hm, h3] at hp
    · simp [parseHMTail, hc] at hp

theorem parseHM_append_colon {e x : List Char} {h m : Nat}
    (hp : parseHM e = some (h, m)) :
    parseHM (e ++ ':' :: x) = none := by
  unfold parseHM at hp ⊢
  match e with
  | [] => simp [parseH] at hp
  | [c1] =>
    by_cases h1 : isDigitC c1 = true
    · simp [parseH, h1, parseHMTail] at hp
    · simp [parseH, h1] at hp
  | c1 :: c2 :: t =>
    cases hph : parseH (c1 :: c2 :: t) with
    | none => rw [hph] at hp; simp at hp
    | some pr =>
      obtain ⟨hh, r⟩ := pr
      rw [hph] at hp
      simp only at hp
      have hext : parseH (c1 :: c2 :: (t ++ ':' :: x)) = some (hh, r ++ ':' :: x) :=
        parseH_append hph
      simp only [List.cons_append] at hext ⊢
      rw [hext]
      exact parseHMTail_append_colon hp

/-! ## Substring search and alphabet facts -/

theorem strIndexAux_subset {needle : List Char} :
    ∀ (hay : List Char) (i j : Nat), strIndexAux needle i hay = some j →
      ∀ c ∈ needle, c ∈ hay := by
  intro hay
  induction hay with
  | nil =>
    intro i j h c hc
    by_cases hpre : needle.isPrefixOf ([] : List Char) = true
    · have : needle = [] := by
        cases needle with
        | nil => rfl
        | cons a b => simp [List.isPrefixOf] at hpre
      subst this
      simp at hc
    · simp [strIndexAux, hpre] at h
  | cons x t ih =>
    intro i j h c hc
    by_cases hpre : needle.isPrefixOf (x :: t) = true
    · have hsub : needle ⊆ x :: t :=
        (List.isPrefixOf_iff_prefix.mp hpre).subset
      exact hsub hc
    · simp only [strIndexAux, hpre, if_false] at h
      have := ih (i + 1) j h c hc
      simp [this]

theorem strIndex_subset {hay needle : List Char} {j : Nat}
    (h : strIndex hay needle = some j) : ∀ c ∈ needle, c ∈ hay :=
  strIndexAux_subset hay 0 j h

theorem strIndex_none_of_colon {hay e1 : List Char}
    (hcol : ':' ∈ e1) (hno : ':' ∉ hay) : strIndex hay e1 = none := by
  cases h : strIndex hay e1 with
  | none => rfl
  | some j => exact absurd (strIndex_subset h ':' hcol) hno

theorem colon_not_mem_upper : ':' ∉ upperAlpha := by decide

theorem colon_not_mem_lower : ':' ∉ lowerAlpha := by decide

/-! ## Colon and shape facts for dispatch -/

theorem hasColon_iff {l : List Char} : hasColon l = true ↔ ':' ∈ l := by
  induction l with
  | nil => simp [hasColon]
  | cons c t ih =>
    simp only [hasColon, Bool.or_eq_true, beq_iff_eq, List.mem_cons, ih]
    constructor
    · rintro (h | h)
      · exact Or.inl h.symm
      · exact Or.inr h
    · rintro (h | h)
      · exact Or.inl h.symm
      · exact Or.inr h

theorem isdigitL_false_of_colon {l : List Char} (h : ':' ∈ l) :
    isdigitL l = false := by
  cases hd : isdigitL l with
  | false => rfl
  | true => exact absurd (isdigitL_mem hd ':' h) (by decide)

theorem mem_append_colon (e st : List Char) : ':' ∈ e ++ ':' :: st := by
  simp

/-! ## Cartesian product cardinality -/

theorem length_flatMap_const {α β : Type} (l : List α) (f : α → List β) (m : Nat)
    (h : ∀ x, (f x).length = m) : (l.flatMap f).length = l.length * m := by
  induction l with
  | nil => simp
  | cons x t ih =>
    simp only [List.flatMap_cons, List.length_append, ih, h x, List.length_cons]
    ring

theorem prodList_length (ls : List (List (List Char))) :
    (prodList ls).length = (ls.map List.length).prod := by
  induction ls with
  | nil => simp [prodList]
  | cons l t ih =>
    simp only [prodList, List.map_cons, List.prod_cons]
    rw [length_flatMap_const l _ ((prodList t).length)
      (fun x => by simp)]
    rw [ih]

theorem prodList_nil_mem {ls : List (List (List Char))} (h : [] ∈ ls) :
    prodList ls = [] := by
  have h0 : (0 : Nat) ∈ ls.map List.length :=
    List.mem_map.mpr ⟨[], h, rfl⟩
  have hprod : (ls.map List.length).prod = 0 :=
    List.prod_eq_zero h0
  have := prodList_length ls
  rw [hprod] at this
  exact List.length_eq_zero.mp this

/-! ## Filter evaluator lemmas -/

theorem pyEval_only_index (e : PyExpr) :
    ∀ (env1 env2 : PyEnv) (v : PyVal), varsOnlyIndex e = true →
      pyEval (("i", v) :: env1) e = pyEval (("i", v) :: env2) e := by
  induction e with
  | intLit n => intro env1 env2 v _; rfl
  | var x =>
    intro env1 env2 v hv
    simp only [varsOnlyIndex, varsOf, List.all_cons, List.all_nil,
      Bool.and_true, beq_iff_eq] at hv
    subst hv
    simp [pyEval, List.lookup]
  | add a b iha ihb =>
    intro env1 env2 v hv
    simp only [varsOnlyIndex, varsOf, List.all_append, Bool.and_eq_true] at hv
    simp only [pyEval, iha env1 env2 v hv.1, ihb env1 env2 v hv.2]
  | sub a b iha ihb =>
    intro env1 env2 v hv
    simp only [varsOnlyIndex, varsOf, List.all_append, Bool.and_eq_true] at hv
    simp only [pyEval, iha env1 env2 v hv.1, ihb env1 env2 v hv.2]
  | mul a b iha ihb =>
    intro env1 env2 v hv
    simp only [varsOnlyIndex, varsOf, List.all_append, Bool.and_eq_true] at hv
    simp only [pyEval, iha env1 env2 v hv.1, ihb env1 env2 v hv.2]
  | mod a b iha ihb =>
    intro env1 env2 v hv
    simp only [varsOnlyIndex, varsOf, List.all_append, Bool.and_eq_true] at hv
    simp only [pyEval, iha env1 env2 v hv.1, ihb env1 env2 v hv.2]
  | eq a b iha ihb =>
    intro env1 env2 v hv
    simp only [varsOnlyIndex, varsOf, List.all_append, Bool.and_eq_true] at hv
    simp only [pyEval, iha env1 env2 v hv.1, ihb env1 env2 v hv.2]
  | ne a b iha ihb =>
    intro env1 env2 v hv
    simp only [varsOnlyIndex, varsOf, List.all_append, Bool.and_eq_true] at hv
    simp only [pyEval, iha env1 env2 v hv.1, ihb env1 env2 v hv.2]
  | lt a b iha ihb =>
    intro env1 env2 v hv
    simp only [varsOnlyIndex, varsOf, List.all_append, Bool.and_eq_true] at hv
    simp only [pyEval, iha env1 env2 v hv.1, ihb env1 env2 v hv.2]
  | le a b iha ihb =>
    intro env1 env2 v hv
    simp only [varsOnlyIndex, varsOf, List.all_append, Bool.and_eq_true] at hv
    simp only [pyEval, iha env1 env2 v hv.1, ihb env1 env2 v hv.2]
  | gt a b iha ihb =>
    intro env1 env2 v hv
    simp only [varsOnlyIndex, varsOf, List.all_append, Bool.and_eq_true] at hv
    simp only [pyEval, iha env1 env2 v hv.1, ihb env1 env2 v hv.2]
  | ge a b iha ihb =>
    intro env1 env2 v hv
    simp only [varsOnlyIndex, varsOf, List.all_append, Bool.and_eq_true] at hv
    simp only [pyEval, iha env1 env2 v hv.1, ihb env1 env2 v hv.2]
  | land a b iha ihb =>
    intro env1 env2 v hv
    simp only [varsOnlyIndex, varsOf, List.all_append, Bool.and_eq_true] at hv
    simp only [pyEval, iha env1 env2 v hv.1, ihb env1 env2 v hv.2]
  | lor a b iha ihb =>
    intro env1 env2 v hv
    simp only [varsOnlyIndex, varsOf, List.all_append, Bool.and_eq_true] at hv
    simp only [pyEval, iha env1 env2 v hv.1, ihb env1 env2 v hv.2]
  | lnot a iha =>
    intro env1 env2 v hv
    simp only [varsOnlyIndex, varsOf] at hv
    simp only [pyEval, iha env1 env2 v hv]

theorem evalKeeps_only_index {e : PyExpr} (henv : varsOnlyIndex e = true)
    (env1 env2 : PyEnv) (i : Nat) :
    evalKeeps env1 e i = evalKeeps env2 e i := by
  unfold evalKeeps
  rw [pyEval_only_index e env1 env2 (PyVal.int i) henv]

theorem remove_channels_keptAux_only_index {e : PyExpr}
    (henv : varsOnlyIndex e = true) (env1 env2 : PyEnv) :
    ∀ (i : Nat) (names : List String),
      remove_channels_keptAux env1 (some e) i names
        = remove_channels_keptAux env2 (some e) i names := by
  intro i names
  induction names generalizing i with
  | nil => rfl
  | cons n t ih =>
    simp only [remove_channels_keptAux, evalKeeps_only_index henv env1 env2 i, ih]

theorem remove_channels_keptAux_eq_filter (env : PyEnv) (c : PyExpr) :
    ∀ (i : Nat) (names : List String),
      remove_channels_keptAux env (some c) i names
        = (enumFrom i names).filter (fun pr => evalKeeps env c pr.1) := by
  intro i names
  induction names generalizing i with
  | nil => rfl
  | cons n t ih =>
    simp only [remove_channels_keptAux, enumFrom, List.filter_cons]
    by_cases hk : evalKeeps env c i = true
    · simp [hk, ih]
    · simp only [Bool.not_eq_true] at hk
      simp [hk, ih]

theorem preview_template_filteredAux_aborts (env : PyEnv) (c : PyExpr) :
    ∀ (names1 : List String) (n : String) (names2 : List String) (i : Nat)
      (err : EvalErr),
      pyEval (("i", PyVal.int (i + names1.length)) :: env) c = .error err →
      ∃ e2, preview_template_filteredAux env c i (names1 ++ n :: names2)
        = .error e2 := by
  intro names1
  induction names1 with
  | nil =>
    intro n names2 i err h
    have h0 : pyEval (("i", PyVal.int i) :: env) c = .error err := by
      simpa using h
    refine ⟨err, ?_⟩
    simp [preview_template_filteredAux, h0]
  | cons a t ih =>
    intro n names2 i err h
    simp only [List.length_cons] at h
    have h2 : pyEval (("i", PyVal.int ((i + 1) + t.length)) :: env) c
        = .error err := by
      have hcast : PyVal.int ((i + 1) + t.length)
          = PyVal.int (i + (t.length + 1)) := by
        norm_num
        ring
      rw [hcast]
      exact h
    obtain ⟨e2, he2⟩ := ih n names2 (i + 1) err h2
    simp only [List.cons_append, preview_template_filteredAux]
    cases hev : pyEval (("i", PyVal.int i) :: env) c with
    | error e0 =>
      refine ⟨e0, ?_⟩
      simp [hev]
    | ok v =>
      refine ⟨e2, ?_⟩
      simp [hev, he2]

/-! ## Claim theorems -/

/-- C1 counterexample: the template "[A, xy...zw]" structurally matches the
prefixed-range regex with an ill-formed multi-character start bound, yet
expansion does not fail: it falls through to the literal-list expander and
returns its output. -/
theorem claim_C1_counterexample :
    interpret_template_string "[A, xy...zw]" = .ok ["A", "xy...zw"] := by rfl

/-- C1 amended: when a template structurally matches the prefixed-range
matcher, a start token that selects one of the three sub-variants makes that
outcome of that sub-variant final, with no later matcher consulted; but a start
token that selects no sub-variant falls through to the grid, literal-list and
passthrough matchers.  An ill-formed bound inside a selected sub-variant, such
as the end bound of "[P, 1...xy]", is a FormatError and does not fall
through. -/
theorem claim_C1_theorem :
    (∀ (fs pfx s1 e1 : List Char) (st : Option (List Char))
       (r : Except FormatError (List (List Char))),
       matchBareNumeric fs = none →
       matchPrefixed fs = some (pfx, s1, e1, st) →
       prefixedBranch pfx s1 e1 st = some r →
       interpretChars fs = r)
    ∧ (∀ (fs pfx s1 e1 : List Char) (st : Option (List Char)),
       matchBareNumeric fs = none →
       matchPrefixed fs = some (pfx, s1, e1, st) →
       prefixedBranch pfx s1 e1 st = none →
       interpretChars fs = restOf fs)
    ∧ interpret_template_string "[P, 1...xy]" = .error .valueError := by
  refine ⟨?_, ?_, ?_⟩
  · intro fs pfx s1 e1 st r h0 h1 h2
    exact interpretChars_prefixed_hit h0 h1 h2
  · intro fs pfx s1 e1 st h0 h1 h2
    exact interpretChars_prefixed_fallthrough h0 h1 h2
  · rfl

/-- C1 witness: concrete instances of both dispatch facts. -/
theorem claim_C1_witness :
    interpretChars ("[P, 1...xy]".data) = .error .valueError
      ∧ interpretChars ("[A, xy...zw]".data) = restOf ("[A, xy...zw]".data) := by
  constructor
  · exact claim_C1_theorem.1 ("[P, 1...xy]".data) ['P'] ['1'] ['x', 'y'] none
      (.error .valueError) (by rfl) (by rfl) (by rfl)
  · exact claim_C1_theorem.2.1 ("[A, xy...zw]".data) ['A'] ['x', 'y'] ['z', 'w']
      none (by rfl) (by rfl) (by rfl)

/-- C2 counterexample: the predicate text "n" names an ambient variable; two
filtering runs over the same two-element sequence with ambient n = 1 and
n = 0 keep different ordinal index sets. -/
theorem claim_C2_counterexample :
    remove_channels_kept [("n", PyVal.int 1)] (some (PyExpr.var "n")) ["a", "b"]
      ≠ remove_channels_kept [("n", PyVal.int 0)] (some (PyExpr.var "n")) ["a", "b"] := by
  decide

/-- C2 amended: the kept ordinal indices are independent of ambient program
state only when the predicate reads no variable other than the index i; the
source evaluates the predicate with the built-in eval in the enclosing scope,
so a predicate naming any other local or global variable can change the kept
set between runs. -/
theorem claim_C2_theorem :
    ∀ (env1 env2 : PyEnv) (e : PyExpr) (names : List String),
      varsOnlyIndex e = true →
      remove_channels_kept env1 (some e) names
        = remove_channels_kept env2 (some e) names := by
  intro env1 env2 e names he
  exact remove_channels_keptAux_only_index he env1 env2 1 names

/-- C2 witness: the index-only predicate "i % 2 == 0" keeps the same indices
under two different ambient scopes. -/
theorem claim_C2_witness :
    remove_channels_kept [("n", PyVal.int 5)] (some idxEvenExpr) ["a", "b"]
      = remove_channels_kept [] (some idxEvenExpr) ["a", "b"] :=
  claim_C2_theorem [("n", PyVal.int 5)] [] idxEvenExpr ["a", "b"] (by decide)

/-- C6 counterexample: in preview_template the eval call is not wrapped per
index; the predicate "1 % (i - 2) == 0" fails at ordinal index 2 and the
whole filtering pass surfaces the error instead of excluding that index and
continuing. -/
theorem claim_C6_counterexample :
    preview_template_filtered [] failAtTwoExpr ["1", "2", "3"]
      = .error EvalErr.zeroDivisionError := by rfl

/-- C6 amended: in remove_channels an evaluation failure excludes just that
index and the pass continues (the kept list is a pointwise filter of the
enumerated sequence); but in preview_template any evaluation failure aborts
the whole pass and surfaces the error to the caller. -/
theorem claim_C6_theorem :
    (∀ (env : PyEnv) (c : PyExpr) (names : List String),
       remove_channels_kept env (some c) names
         = (enumFrom 1 names).filter (fun pr => evalKeeps env c pr.1))
    ∧ (∀ (env : PyEnv) (c : PyExpr) (names1 : List String) (n : String)
         (names2 : List String) (err : EvalErr),
       pyEval (("i", PyVal.int (1 + names1.length)) :: env) c = .error err →
       ∃ e2, preview_template_filtered env c (names1 ++ n :: names2) = .error e2)
    ∧ remove_channels_kept [] (some failAtTwoExpr) ["1", "2", "3"]
        = [(1, "1"), (3, "3")] := by
  refine ⟨?_, ?_, ?_⟩
  · intro env c names
    exact remove_channels_keptAux_eq_filter env c 1 names
  · intro env c names1 n names2 err h
    exact preview_template_filteredAux_aborts env c names1 n names2 1 err h
  · decide

/-- C6 witness: the abort fact instantiated at a three-element sequence whose
predicate fails at the middle index. -/
theorem claim_C6_witness :
    ∃ e2, preview_template_filtered [] failAtTwoExpr (["1"] ++ "2" :: ["3"])
      = .error e2 :=
  claim_C6_theorem.2.1 [] failAtTwoExpr ["1"] "2" ["3"] EvalErr.zeroDivisionError
    (by rfl)

/-- C8: expanding "[1...6]" and filtering with the predicate "i % 2 == 0"
keeps exactly the elements at ordinal indices 2, 4 and 6, the values "2",
"4" and "6", in that order. -/
theorem claim_C8_theorem :
    interpret_template_string "[1...6]" = .ok ["1", "2", "3", "4", "5", "6"]
    ∧ remove_channels_kept [] (some idxEvenExpr) ["1", "2", "3", "4", "5", "6"]
      = [(2, "2"), (4, "4"), (6, "6")] := by
  exact ⟨by rfl, by decide⟩

/-- C9: expansion is deterministic; the embedding is a pure function of the
template text (the source reads no mutable state), so identical input text
yields identical output sequences. -/
theorem claim_C9_theorem :
    ∀ s t : String, s = t →
      interpret_template_string s = interpret_template_string t := by
  intro s t h
  rw [h]

/-- C9 witness: two calls on the same text agree. -/
theorem claim_C9_witness :
    interpret_template_string "[1...3]" = interpret_template_string "[1...3]" :=
  claim_C9_theorem "[1...3]" "[1...3]" rfl

/-! ## Branch value lemmas for the remaining claims -/

theorem bareBranch_empty {ds es : List Char} {st : Option (List Char)}
    (hlt : decVal es < decVal ds) (hstep : 0 < stepOf st) :
    bareBranch ds es st = .ok [] := by
  unfold bareBranch
  have hz : ¬ (stepOf st = 0) := by omega
  have hnil : pyRangePos (decVal ds : Int) ((decVal es : Int) + 1) (stepOf st) = [] :=
    pyRangePos_nil (by exact_mod_cast hlt)
  simp [hz, hnil]

theorem prefixedBranch_numeric (g1 s1 e1 : List Char) (st : Option (List Char))
    (hs1 : isdigitL s1 = true) (he1 : isdigitL e1 = true) :
    prefixedBranch g1 s1 e1 st = some (
      if stepOf st = 0 then .error .valueError
      else .ok ((pyRangePos (decVal s1 : Int) ((decVal e1 : Int) + 1)
        (stepOf st)).map
        (fun i => stripL g1 ++ zfill (max s1.length e1.length) (intToDec i)))) := by
  unfold prefixedBranch
  simp [hs1, he1]

theorem prefixedBranch_numeric_empty {pfx s1 e1 : List Char}
    {st : Option (List Char)}
    (hs1 : isdigitL s1 = true) (he1 : isdigitL e1 = true)
    (hlt : decVal e1 < decVal s1) (hstep : 0 < stepOf st) :
    prefixedBranch pfx s1 e1 st = some (.ok []) := by
  rw [prefixedBranch_numeric pfx s1 e1 st hs1 he1]
  have hz : ¬ (stepOf st = 0) := by omega
  have hnil : pyRangePos (decVal s1 : Int) ((decVal e1 : Int) + 1) (stepOf st) = [] :=
    pyRangePos_nil (by exact_mod_cast hlt)
  simp [hz, hnil]

theorem rangeElem_len {ds es : List Char} {step : Nat}
    (hes : isdigitL es = true) (hstep : 0 < step) {i : Int}
    (hi : i ∈ pyRangePos (decVal ds : Int) ((decVal es : Int) + 1) step) :
    (zfill (max ds.length es.length) (intToDec i)).length
      = max ds.length es.length := by
  obtain ⟨hlo, hhi⟩ := pyRangePos_mem hstep hi
  have h0 : (0 : Int) ≤ i := le_trans (Int.natCast_nonneg _) hlo
  have hes_lt : decVal es < 10 ^ es.length := decVal_lt (isdigitL_mem hes)
  have heslen : 1 ≤ es.length := by
    cases es with
    | nil => exact absurd hes (by simp [isdigitL])
    | cons a b => simp
  have hwge : 1 ≤ max ds.length es.length := le_trans heslen (le_max_right _ _)
  have hpowle : (10 : Nat) ^ es.length ≤ 10 ^ max ds.length es.length :=
    Nat.pow_le_pow_right (by omega) (le_max_right _ _)
  have hi10 : i < ((10 ^ max ds.length es.length : Nat) : Int) := by
    have h1 : i ≤ ((decVal es : Nat) : Int) := by omega
    have h2 : ((decVal es : Nat) : Int) < ((10 ^ es.length : Nat) : Int) := by
      exact_mod_cast hes_lt
    have h3 : ((10 ^ es.length : Nat) : Int)
        ≤ ((10 ^ max ds.length es.length : Nat) : Int) := by
      exact_mod_cast hpowle
    omega
  exact zfill_len (intToDec_len h0 hwge hi10)

/-! ## The remaining claim theorems -/

/-- C7: a numeric range template whose start exceeds its end with a positive
step expands to the empty sequence, not an error, both bare and prefixed; in
particular "[5...3]" expands to the empty sequence. -/
theorem claim_C7_theorem :
    (∀ (fs ds es : List Char) (st : Option (List Char)),
       matchBareNumeric fs = some (ds, es, st) →
       decVal es < decVal ds → 0 < stepOf st →
       interpretChars fs = .ok [])
    ∧ (∀ (fs pfx s1 e1 : List Char) (st : Option (List Char)),
       matchBareNumeric fs = none → matchPrefixed fs = some (pfx, s1, e1, st) →
       isdigitL s1 = true → isdigitL e1 = true →
       decVal e1 < decVal s1 → 0 < stepOf st →
       interpretChars fs = .ok [])
    ∧ interpret_template_string "[5...3]" = .ok []
    ∧ interpret_template_string "[P,5...3]" = .ok [] := by
  refine ⟨?_, ?_, by rfl, by rfl⟩
  · intro fs ds es st h hlt hstep
    rw [interpretChars_bare h]
    exact bareBranch_empty hlt hstep
  · intro fs pfx s1 e1 st h0 h1 hs1 he1 hlt hstep
    exact interpretChars_prefixed_hit h0 h1
      (prefixedBranch_numeric_empty hs1 he1 hlt hstep)

/-- C7 witness: both inverted-range facts at concrete templates. -/
theorem claim_C7_witness :
    interpretChars ("[5...3]".data) = .ok []
      ∧ interpretChars ("[P,5...3]".data) = .ok [] := by
  constructor
  · exact claim_C7_theorem.1 ("[5...3]".data) ['5'] ['3'] none (by rfl)
      (by decide) (by decide)
  · exact claim_C7_theorem.2.1 ("[P,5...3]".data) ['P'] ['5'] ['3'] none
      (by rfl) (by rfl) (by decide) (by decide) (by decide) (by decide)

/-- C4: a grid template with brace-group axes expands to the Cartesian
product of the axes in declaration order with the rightmost axis fastest,
one output per tuple obtained by substituting the tuple elements into the
brace groups left to right; the output count is the product of the axis
lengths, an axis with an empty range collapses the whole result to the empty
sequence, and expand on "Sector{A...B}{1...2}" yields exactly
["SectorA1", "SectorA2", "SectorB1", "SectorB2"]. -/
theorem claim_C4_theorem :
    (∀ (fs : List Char) (bs : List (List Char)) (ls : List (List (List Char))),
       matchBareNumeric fs = none → matchPrefixed fs = none →
       findBraces fs = bs → bs ≠ [] → parseAxes bs = .ok ls →
       (interpretChars fs
          = .ok ((prodList ls).map (fun combo => combo.foldl subFirstBrace fs)))
       ∧ ((prodList ls).map (fun combo => combo.foldl subFirstBrace fs)).length
          = (ls.map List.length).prod
       ∧ ([] ∈ ls → interpretChars fs = .ok []))
    ∧ interpret_template_string "Sector\x7bA...B\x7d\x7b1...2\x7d"
        = .ok ["SectorA1", "SectorA2", "SectorB1", "SectorB2"]
    ∧ interpret_template_string "a\x7b5...3\x7db\x7b1...2\x7dc" = .ok [] := by
  refine ⟨?_, by rfl, by rfl⟩
  intro fs bs ls h0 h1 hbs hne hax
  have hbe : bs.isEmpty = false := by
    cases bs with
    | nil => exact absurd rfl hne
    | cons a b => simp
  have hmain : interpretChars fs
      = .ok ((prodList ls).map (fun combo => combo.foldl subFirstBrace fs)) := by
    rw [interpretChars_rest h0 h1]
    unfold restOf
    rw [hbs]
    simp [hbe, hax]
  refine ⟨hmain, ?_, ?_⟩
  · rw [List.length_map, prodList_length]
  · intro hmem
    rw [hmain, prodList_nil_mem hmem]
    simp

/-- C4 witness: the general grid fact instantiated at the Sector template. -/
theorem claim_C4_witness :
    interpretChars ("Sector\x7bA...B\x7d\x7b1...2\x7d".data)
      = .ok ((prodList [[['A'], ['B']], [['1'], ['2']]]).map
        (fun combo => combo.foldl subFirstBrace
          ("Sector\x7bA...B\x7d\x7b1...2\x7d".data))) :=
  (claim_C4_theorem.1 ("Sector\x7bA...B\x7d\x7b1...2\x7d".data)
    [['A', '.', '.', '.', 'B'], ['1', '.', '.', '.', '2']]
    [[['A'], ['B']], [['1'], ['2']]]
    (by rfl) (by rfl) (by rfl) (by decide) (by rfl)).1

/-- C5: every element produced by a bare or prefixed numeric range is
zero-padded to the width of the wider literal boundary token (the prefix not
counted), so every output has exactly that character length, the prefix
counted after the strip of bot.py line 48; leading zeros are preserved even
when the end token is narrower, and expand on "[01...10]" runs from "01" to
"10". -/
theorem claim_C5_theorem :
    (∀ (fs ds es : List Char) (st : Option (List Char)) (out : List (List Char)),
       matchBareNumeric fs = some (ds, es, st) →
       isdigitL ds = true → isdigitL es = true →
       interpretChars fs = .ok out →
       ∀ o ∈ out, o.length = max ds.length es.length)
    ∧ (∀ (fs g1 s1 e1 : List Char) (st : Option (List Char)) (out : List (List Char)),
       matchBareNumeric fs = none → matchPrefixed fs = some (g1, s1, e1, st) →
       isdigitL s1 = true → isdigitL e1 = true →
       interpretChars fs = .ok out →
       ∀ o ∈ out, o.length = (stripL g1).length + max s1.length e1.length)
    ∧ interpret_template_string "[01...10]"
        = .ok ["01", "02", "03", "04", "05", "06", "07", "08", "09", "10"]
    ∧ interpret_template_string "[001...5]"
        = .ok ["001", "002", "003", "004", "005"]
    ∧ interpret_template_string "[ P,08...10]" = .ok ["P08", "P09", "P10"] := by
  refine ⟨?_, ?_, by rfl, by rfl, by rfl⟩
  · intro fs ds es st out hmatch hds hes hok
    rw [interpretChars_bare hmatch] at hok
    unfold bareBranch at hok
    by_cases hz : stepOf st = 0
    · simp [hz] at hok
    · simp only [hz, if_false] at hok
      rw [Except.ok.injEq] at hok
      intro o ho
      rw [← hok] at ho
      obtain ⟨i, hi, rfl⟩ := List.mem_map.mp ho
      exact rangeElem_len hes (by omega) hi
  · intro fs g1 s1 e1 st out h0 h1 hs1 he1 hok
    rw [interpretChars_prefixed_hit h0 h1
      (prefixedBranch_numeric g1 s1 e1 st hs1 he1)] at hok
    by_cases hz : stepOf st = 0
    · simp [hz] at hok
    · simp only [hz, if_false] at hok
      rw [Except.ok.injEq] at hok
      intro o ho
      rw [← hok] at ho
      obtain ⟨i, hi, rfl⟩ := List.mem_map.mp ho
      rw [List.length_append]
      rw [rangeElem_len he1 (by omega) hi]

/-- C5 witness: both padding facts at concrete numeric templates, the
prefixed one with a whitespace-padded prefix group that the program strips. -/
theorem claim_C5_witness :
    (∀ o ∈ ["01", "02", "03", "04", "05", "06", "07", "08", "09", "10"].map
        String.data, o.length = max ['0', '1'].length ['1', '0'].length)
    ∧ (∀ o ∈ ["P08", "P09", "P10"].map String.data,
        o.length = (stripL [' ', 'P']).length
          + max ['0', '8'].length ['1', '0'].length) := by
  constructor
  · exact claim_C5_theorem.1 ("[01...10]".data) ['0', '1'] ['1', '0'] none
      (["01", "02", "03", "04", "05", "06", "07", "08", "09", "10"].map String.data)
      (by rfl) (by decide) (by decide) (by rfl)
  · exact claim_C5_theorem.2.1 ("[ P,08...10]".data) [' ', 'P'] ['0', '8'] ['1', '0']
      none (["P08", "P09", "P10"].map String.data)
      (by rfl) (by rfl) (by decide) (by decide) (by rfl)

/-- C3: a range template carrying a step token of value 0 is rejected with a
FormatError for every range kind.  For the bare numeric form the step group
parses and range() rejects the zero step; for every prefixed form the
":0" suffix is absorbed into the end token by the greedy class run, making
the end token unparseable for its sub-variant (int, strptime or str.index
raises).  Negative step tokens never match any range shape at all, so a
structurally matched range template can only carry a digit step token.
Expansion always terminates and never silently returns a sequence here. -/
theorem claim_C3_theorem :
    (∀ (fs ds es stok : List Char),
       matchBareNumeric fs = some (ds, es, some stok) →
       decVal stok = 0 →
       interpretChars fs = .error .valueError)
    ∧ (∀ (fs pfx s1 e stok : List Char),
       matchBareNumeric fs = none →
       matchPrefixed fs = some (pfx, s1, e ++ ':' :: stok, none) →
       isdigitL s1 = true → isdigitL stok = true → decVal stok = 0 →
       interpretChars fs = .error .valueError)
    ∧ (∀ (fs pfx s1 e stok : List Char) (h2 m2 : Nat),
       matchBareNumeric fs = none →
       matchPrefixed fs = some (pfx, s1, e ++ ':' :: stok, none) →
       hasColon s1 = true → parseHM e = some (h2, m2) →
       isdigitL stok = true → decVal stok = 0 →
       interpretChars fs = .error .valueError)
    ∧ (∀ (fs pfx e stok : List Char) (c : Char),
       matchBareNumeric fs = none →
       matchPrefixed fs = some (pfx, [c], e ++ ':' :: stok, none) →
       isAlphaC c = true →
       isdigitL stok = true → decVal stok = 0 →
       interpretChars fs = .error .valueError) := by
  refine ⟨?_, ?_, ?_, ?_⟩
  · intro fs ds es stok h hst
    rw [interpretChars_bare h]
    unfold bareBranch
    have hz : stepOf (some stok) = 0 := by simp [stepOf, hst]
    simp [hz]
  · intro fs pfx s1 e stok h0 h1 hs1 hstd hst
    have hnd : isdigitL (e ++ ':' :: stok) = false :=
      isdigitL_false_of_colon (mem_append_colon e stok)
    have hb : prefixedBranch pfx s1 (e ++ ':' :: stok) none
        = some (.error .valueError) := by
      unfold prefixedBranch
      simp [hs1, hnd]
    exact interpretChars_prefixed_hit h0 h1 hb
  · intro fs pfx s1 e stok h2 m2 h0 h1 hcol hp hstd hst
    have hnd : isdigitL s1 = false :=
      isdigitL_false_of_colon (hasColon_iff.mp hcol)
    have hext : parseHM (e ++ ':' :: stok) = none := parseHM_append_colon hp
    have hb : prefixedBranch pfx s1 (e ++ ':' :: stok) none
        = some (.error .valueError) := by
      unfold prefixedBranch
      cases hs1p : parseHM s1 with
      | none => simp [hnd, hcol, hs1p]
      | some pr => simp [hnd, hcol, hs1p, hext]
    exact interpretChars_prefixed_hit h0 h1 hb
  · intro fs pfx e stok c h0 h1 hc hstd hst
    have hcne : c ≠ ':' := by
      intro hcc
      subst hcc
      exact absurd hc (by decide)
    have hnd : isdigitL [c] = false := by
      simp [isdigitL, alpha_not_digit hc]
    have hncol : hasColon [c] = false := by
      simp [hasColon, hcne]
    have halpha : isalphaL [c] = true := by
      simp [isalphaL, hc]
    have hA : ':' ∉ (if pyIsUpper [c] then upperAlpha else lowerAlpha) := by
      by_cases hu : pyIsUpper [c] = true
      · simp [hu, colon_not_mem_upper]
      · simp [hu, colon_not_mem_lower]
    have hnone : strIndex (if pyIsUpper [c] then upperAlpha else lowerAlpha)
        (e ++ ':' :: stok) = none :=
      strIndex_none_of_colon (mem_append_colon e stok) hA
    have hb : prefixedBranch pfx [c] (e ++ ':' :: stok) none
        = some (.error .valueError) := by
      unfold prefixedBranch
      cases hidx : strIndex (if pyIsUpper [c] then upperAlpha else lowerAlpha) [c] with
      | none => simp [hnd, hncol, halpha, hidx]
      | some i => simp [hnd, hncol, halpha, hidx, hnone]
    exact interpretChars_prefixed_hit h0 h1 hb

/-- C3 witness: all four range kinds with a zero step token at concrete
templates. -/
theorem claim_C3_witness :
    interpretChars ("[1...5:0]".data) = .error .valueError
    ∧ interpretChars ("[P,1...5:0]".data) = .error .valueError
    ∧ interpretChars ("[T,09:00...17:00:0]".data) = .error .valueError
    ∧ interpretChars ("[S,A...C:0]".data) = .error .valueError := by
  refine ⟨?_, ?_, ?_, ?_⟩
  · exact claim_C3_theorem.1 ("[1...5:0]".data) ['1'] ['5'] ['0'] (by rfl) (by rfl)
  · exact claim_C3_theorem.2.1 ("[P,1...5:0]".data) ['P'] ['1'] ['5'] ['0']
      (by rfl) (by rfl) (by decide) (by decide) (by rfl)
  · exact claim_C3_theorem.2.2.1 ("[T,09:00...17:00:0]".data) ['T']
      ("09:00".data) ("17:00".data) ['0'] 17 0
      (by rfl) (by rfl) (by decide) (by rfl) (by decide) (by rfl)
  · exact claim_C3_theorem.2.2.2 ("[S,A...C:0]".data) ['S'] ['C'] ['0'] 'A'
      (by rfl) (by rfl) (by decide) (by decide) (by rfl)

theorem prefixedBranch_isSome (pfx s1 e1 : List Char) (st : Option (List Char))
    (h : isdigitL s1 = true ∨ hasColon s1 = true
      ∨ (s1.length = 1 ∧ isalphaL s1 = true)) :
    (prefixedBranch pfx s1 e1 st).isSome = true := by
  unfold prefixedBranch
  rcases h with h | h | h
  · simp [h]
  · by_cases hd : isdigitL s1 = true
    · simp [hd]
    · simp [hd, h]
  · by_cases hd : isdigitL s1 = true
    · simp [hd]
    · by_cases hc : hasColon s1 = true
      · simp [hd, hc]
      · simp [hd, hc, h.1, h.2]

/-- C10: the two bracketed range matchers are anchored only at the start of
the template, so any characters after the closing bracket are silently
discarded: the expansion of a well-formed bare numeric or prefixed range
followed by arbitrary trailing text equals the expansion without the
trailing text, and "[1...2]tail" expands to ["1", "2"]. -/
theorem claim_C10_theorem :
    (∀ (ds es tail : List Char), isdigitL ds = true → isdigitL es = true →
       interpretChars ('[' :: (ds ++ '.' :: '.' :: '.' :: (es ++ ']' :: tail)))
         = interpretChars ('[' :: (ds ++ '.' :: '.' :: '.' :: (es ++ [']']))))
    ∧ (∀ (c0 : Char) (p0 s1 e1 tail : List Char),
       isAlphaC c0 = true →
       (∀ x ∈ c0 :: p0, predG1 x = true) →
       s1 ≠ [] → (∀ x ∈ s1, inClsC x = true) →
       e1 ≠ [] → (∀ x ∈ e1, inClsC x = true) →
       (isdigitL s1 = true ∨ hasColon s1 = true
         ∨ (s1.length = 1 ∧ isalphaL s1 = true)) →
       interpretChars
           ('[' :: ((c0 :: p0) ++ ',' :: (s1 ++ '.' :: '.' :: '.' :: (e1 ++ ']' :: tail))))
         = interpretChars
           ('[' :: ((c0 :: p0) ++ ',' :: (s1 ++ '.' :: '.' :: '.' :: (e1 ++ [']'])))))
    ∧ interpret_template_string "[1...2]tail" = .ok ["1", "2"] := by
  refine ⟨?_, ?_, by rfl⟩
  · intro ds es tail hds hes
    rw [interpretChars_bare (matchBareNumeric_build ds es tail hds hes),
      interpretChars_bare (matchBareNumeric_build ds es [] hds hes)]
  · intro c0 p0 s1 e1 tail hc0 hp hs1 hs1a he1 he1a hsub
    have h0t : matchBareNumeric
        ('[' :: ((c0 :: p0) ++ ',' :: (s1 ++ '.' :: '.' :: '.' :: (e1 ++ ']' :: tail))))
        = none := by
      rw [List.cons_append]
      exact matchBareNumeric_none_of_alpha_head c0 _ hc0
    have h0n : matchBareNumeric
        ('[' :: ((c0 :: p0) ++ ',' :: (s1 ++ '.' :: '.' :: '.' :: (e1 ++ [']']))))
        = none := by
      rw [List.cons_append]
      exact matchBareNumeric_none_of_alpha_head c0 _ hc0
    have h1t := matchPrefixed_build c0 p0 s1 e1 tail hp hs1 hs1a he1 he1a
    have h1n := matchPrefixed_build c0 p0 s1 e1 [] hp hs1 hs1a he1 he1a
    obtain ⟨r, hr⟩ := Option.isSome_iff_exists.mp
      (prefixedBranch_isSome (c0 :: p0) s1 e1 none hsub)
    rw [interpretChars_prefixed_hit h0t h1t hr,
      interpretChars_prefixed_hit h0n h1n hr]

/-- C10 witness: concrete instances for both matchers with trailing text. -/
theorem claim_C10_witness :
    interpretChars ('[' :: (['1'] ++ '.' :: '.' :: '.' :: (['2'] ++ ']' :: "tail".data)))
      = interpretChars ('[' :: (['1'] ++ '.' :: '.' :: '.' :: (['2'] ++ [']'])))
    ∧ interpretChars
        ('[' :: (('T' :: []) ++ ',' :: (['1'] ++ '.' :: '.' :: '.' :: (['2'] ++ ']' :: "xx".data))))
      = interpretChars
        ('[' :: (('T' :: []) ++ ',' :: (['1'] ++ '.' :: '.' :: '.' :: (['2'] ++ [']'])))) := by
  constructor
  · exact claim_C10_theorem.1 ['1'] ['2'] ("tail".data) (by decide) (by decide)
  · exact claim_C10_theorem.2.1 'T' [] ['1'] ['2'] ("xx".data) (by decide)
      (by decide) (by decide) (by decide) (by decide) (by decide)
      (Or.inl (by decide))
